import Mathlib

/-!
# Milestone storage of the hornet node: codec and storage façade

Shallow embedding of `pkg/model/storage/milestones_storage.go`.

* Go `[]byte` values are `ByteSlice`s: the visible elements plus the part of the
  backing array between `len` and `cap`, because Go checks a slice expression
  `s[lo:hi]` against the capacity and an index expression `s[i]` against the length.
* Go run-time panics are the error side of `Except GoPanic`; a Go `error` result is an
  `Option GoError` next to the ordinary result (`none` is `nil`).
* `milestone.Index` is a `uint32`, modelled as a `Nat` that is reduced `% 2^32` where the
  code converts it; `int64`/`uint64` conversions are explicit.
-/

namespace Hornet

/-! ## Go run-time values -/

/-- One byte. -/
abbrev Byte := Fin 256

/-- Run-time panics of the embedded code. -/
inductive GoPanic where
  /-- An index expression `s[index]` with `index ≥ len(s)`. -/
  | indexOutOfRange (index len : Nat)
  /-- A slice expression `s[lo:hi]` with `hi > cap(s)` or `lo > hi`. -/
  | sliceBounds (bound limit : Nat)
  /-- A method call or type assertion on a nil interface value. -/
  | nilInterface
  /-- An explicit `panic(msg)`. -/
  | message (msg : String)
  deriving DecidableEq, Repr

/-- A Go `error` value created by `errors.New`. -/
structure GoError where
  msg : String
  deriving DecidableEq, Repr

/-- A Go `[]byte`: `elems` are the `len(s)` visible bytes, `spare` is the rest of the
backing array up to `cap(s)`. -/
structure ByteSlice where
  elems : List Byte
  spare : List Byte
  deriving DecidableEq, Repr

namespace ByteSlice

/-- The Go builtin `len(s)`. -/
def len (s : ByteSlice) : Nat := s.elems.length

/-- The Go builtin `cap(s)`. -/
def cap (s : ByteSlice) : Nat := s.elems.length + s.spare.length

/-- The slice expression `s[lo:hi]`: panics unless `lo ≤ hi ≤ cap(s)`; otherwise it may
reach into the backing array beyond `len(s)`. -/
def slice (s : ByteSlice) (lo hi : Nat) : Except GoPanic ByteSlice :=
  if s.cap < hi then .error (.sliceBounds hi s.cap)
  else if hi < lo then .error (.sliceBounds lo hi)
  else .ok ⟨((s.elems ++ s.spare).drop lo).take (hi - lo), (s.elems ++ s.spare).drop hi⟩

end ByteSlice

/-- The Go builtin `make([]byte, n)`: `n` zero bytes, no spare capacity. -/
def make (n : Nat) : ByteSlice := ⟨List.replicate n 0, []⟩

/-- The conversion `byte(v)` of an unsigned integer. -/
def toByte (v : Nat) : Byte := ⟨v % 256, Nat.mod_lt _ (by decide)⟩

/-- The conversion `uint32(v)`. -/
def toUint32 (v : Nat) : Nat := v % 2 ^ 32

/-- The conversion `uint64(x)` of an `int64`: two's complement. -/
def toUint64 (x : Int) : Nat := (x % 2 ^ 64).toNat

/-- The conversion `int64(v)` of a `uint64`: two's complement. -/
def toInt64 (v : Nat) : Int :=
  if v % 2 ^ 64 < 2 ^ 63 then ((v % 2 ^ 64 : Nat) : Int) else ((v % 2 ^ 64 : Nat) : Int) - 2 ^ 64

/-- Wrap-around of `int64` arithmetic. -/
def wrapInt64 (x : Int) : Int := (x + 2 ^ 63) % 2 ^ 64 - 2 ^ 63

/-! ## `encoding/binary`, little endian -/

/-- Go `binary.LittleEndian.PutUint32(b, v)`; the early bounds check `_ = b[3]` is the
argument `_h`. -/
def PutUint32 (b : ByteSlice) (v : Nat) (_h : 4 ≤ b.len) : ByteSlice :=
  ⟨[toByte v, toByte (v >>> 8), toByte (v >>> 16), toByte (v >>> 24)] ++ b.elems.drop 4, b.spare⟩

/-- Go `binary.LittleEndian.Uint32(b)`: panics on the bounds check `_ = b[3]` when
`len(b) < 4`, otherwise combines the first four bytes. -/
def Uint32 (b : ByteSlice) : Except GoPanic Nat :=
  match b.elems with
  | b0 :: b1 :: b2 :: b3 :: _ =>
    .ok (b0.val ||| b1.val <<< 8 ||| b2.val <<< 16 ||| b3.val <<< 24)
  | _ => .error (.indexOutOfRange 3 b.len)

/-- Go `binary.LittleEndian.PutUint64(b, v)`; the early bounds check `_ = b[7]` is the
argument `_h`. -/
def PutUint64 (b : ByteSlice) (v : Nat) (_h : 8 ≤ b.len) : ByteSlice :=
  ⟨[toByte v, toByte (v >>> 8), toByte (v >>> 16), toByte (v >>> 24),
    toByte (v >>> 32), toByte (v >>> 40), toByte (v >>> 48), toByte (v >>> 56)]
    ++ b.elems.drop 8, b.spare⟩

/-- Go `binary.LittleEndian.Uint64(b)`: panics on the bounds check `_ = b[7]` when
`len(b) < 8`, otherwise combines the first eight bytes. -/
def Uint64 (b : ByteSlice) : Except GoPanic Nat :=
  match b.elems with
  | b0 :: b1 :: b2 :: b3 :: b4 :: b5 :: b6 :: b7 :: _ =>
    .ok (b0.val ||| b1.val <<< 8 ||| b2.val <<< 16 ||| b3.val <<< 24
      ||| b4.val <<< 32 ||| b5.val <<< 40 ||| b6.val <<< 48 ||| b7.val <<< 56)
  | _ => .error (.indexOutOfRange 7 b.len)

/-! ## `time.Time` -/

/-- Seconds from January 1 of year 1 to the Unix epoch (`unixToInternal` of package
`time`). -/
def unixToInternal : Int := (1969 * 365 + 1969 / 4 - 1969 / 100 + 1969 / 400) * 86400

/-- The opposite offset (`internalToUnix` of package `time`). -/
def internalToUnix : Int := -unixToInternal

/-- A Go `time.Time` as an instant: `sec` is the `int64` count of seconds since January 1
of year 1, `nsec` the nanoseconds within that second. Location and monotonic clock
reading are left out. -/
structure Time where
  sec : Int
  nsec : Nat
  deriving DecidableEq, Repr

/-- The zero value `time.Time{}`. -/
def Time.zero : Time := ⟨0, 0⟩

/-- Go `t.Unix()`: seconds since the Unix epoch, in `int64` arithmetic. -/
def Time.Unix (t : Time) : Int := wrapInt64 (t.sec + internalToUnix)

/-- Go `time.Unix(sec, nsec)`: normalises `nsec` into `[0, 1e9)` and shifts to the
internal epoch, in `int64` arithmetic. -/
def timeUnix (sec nsec : Int) : Time :=
  let norm : Int × Int :=
    if nsec < 0 ∨ 1000000000 ≤ nsec then
      let n := Int.tdiv nsec 1000000000
      let sec1 := wrapInt64 (sec + n)
      let nsec1 := nsec - n * 1000000000
      if nsec1 < 0 then (wrapInt64 (sec1 - 1), nsec1 + 1000000000) else (sec1, nsec1)
    else (sec, nsec)
  ⟨wrapInt64 (norm.1 + unixToInternal), norm.2.toNat⟩

/-! ## The milestone entity and its codec -/

/-- The length of a message ID (`iotago.MessageIDLength`). -/
def MessageIDLength : Nat := 32

/-- The size of an encoded `uint64` (`serializer.UInt64ByteSize`). -/
def UInt64ByteSize : Nat := 8

/-- The type `hornet.MessageID`, a byte string. -/
abbrev MessageID := List Byte

/-- The struct `Milestone` (the embedded object-storage flags are left out). -/
structure Milestone where
  Index : Nat
  MessageID : MessageID
  Timestamp : Time
  deriving DecidableEq, Repr

/-- The error value `ErrMilestoneNotFound`. -/
def ErrMilestoneNotFound : GoError := ⟨"milestone not found"⟩

/-- Go `databaseKeyForMilestoneIndex`. -/
def databaseKeyForMilestoneIndex (milestoneIndex : Nat) : ByteSlice :=
  PutUint32 (make 4) (toUint32 milestoneIndex) (by decide)

/-- Go `milestoneIndexFromDatabaseKey`. -/
def milestoneIndexFromDatabaseKey (key : ByteSlice) : Except GoPanic Nat :=
  Uint32 key

/-- Modelled from the spec: `hornet.MessageIDFromSlice` is not among the sources; a message
ID is a 32-byte identifier, so the conversion keeps the bytes of a 32-byte slice and panics
on any other length. -/
def MessageIDFromSlice (b : ByteSlice) : Except GoPanic MessageID :=
  if b.len ≠ MessageIDLength then .error (.message "message ID invalid length")
  else .ok b.elems

/-- Go `byteutils.ConcatBytes` (hive.go): a fresh slice holding the arguments one after
the other. -/
def ConcatBytes (byteSlices : List (List Byte)) : ByteSlice := ⟨byteSlices.flatten, []⟩

/-- Go `milestoneFactory`: the fields are evaluated in source order, each able to panic;
the result is a pointer to the new
`Milestone` with a `nil` error. -/
def milestoneFactory (key data : ByteSlice) :
    Except GoPanic (Option Milestone × Option GoError) := do
  let index ← milestoneIndexFromDatabaseKey key
  let idBytes ← data.slice 0 MessageIDLength
  let messageID ← MessageIDFromSlice idBytes
  let tsBytes ← data.slice MessageIDLength (MessageIDLength + UInt64ByteSize)
  let ts ← Uint64 tsBytes
  return (some ⟨index, messageID, timeUnix (toInt64 ts) 0⟩, none)

/-- Modelled from the spec: `hornet.MessageID.ToHex` is not among the sources; the
identifier rendered as lower-case hexadecimal, two digits per byte. -/
def ToHex (m : MessageID) : String :=
  String.mk (m.flatMap fun b => [Nat.digitChar (b.val / 16), Nat.digitChar (b.val % 16)])

/-- Go `(*Milestone).Update`: the receiver after the call, and how the call ends. The
body is one `panic` with the formatted message; nothing is assigned. -/
def Milestone.Update {α : Type} (ms : Milestone) (_other : α) : Milestone × Except GoPanic Unit :=
  (ms, .error (.message
    ("Milestone should never be updated: " ++ ToHex ms.MessageID ++ " (" ++ toString ms.Index ++ ")")))

/-- Go `(*Milestone).ObjectStorageKey`. -/
def Milestone.ObjectStorageKey (ms : Milestone) : ByteSlice :=
  databaseKeyForMilestoneIndex ms.Index

/-- Go `(*Milestone).ObjectStorageValue`: 32 byte message ID, 8 byte timestamp. -/
def Milestone.ObjectStorageValue (ms : Milestone) : ByteSlice :=
  let value := PutUint64 (make 8) (toUint64 ms.Timestamp.Unix) (by decide)
  ConcatBytes [ms.MessageID, value.elems]

/-! ## The object storage (hive.go), as far as the façade uses it -/

/-- A call into the object storage, recorded in call order. -/
inductive StorageCall where
  | load (key : List Byte)
  | release (key : List Byte) (force : Bool)
  | storeIfAbsent (key : List Byte)
  deriving DecidableEq, Repr

/-- A non-nil `objectstorage.CachedObject`: the handle of one consumer on the entry of
`key`; `object` is `none` when the entry does not exist. -/
structure CachedObject where
  key : List Byte
  object : Option Milestone
  deriving DecidableEq, Repr

/-- The state of `objectstorage.ObjectStorage` seen through its interface: the object
found under each key (cache and store together), the consumer count of each entry, the
keys of the underlying store in its iteration order, and the calls made so far. -/
structure ObjectStorage where
  objects : List Byte → Option Milestone
  consumers : List Byte → Int
  storeKeys : List ByteSlice
  calls : List StorageCall

/-- An object storage without entries. -/
def ObjectStorage.empty : ObjectStorage := ⟨fun _ => none, fun _ => 0, [], []⟩

/-- Go `ObjectStorage.Load(key)`: registers one consumer on the entry and returns its
handle, whether the object exists or not. -/
def ObjectStorage.Load (os : ObjectStorage) (key : ByteSlice) : ObjectStorage × CachedObject :=
  ({ os with
      consumers := fun k => if k = key.elems then os.consumers k + 1 else os.consumers k
      calls := os.calls ++ [.load key.elems] },
   ⟨key.elems, os.objects key.elems⟩)

/-- Go `CachedObject.Exists()`. -/
def CachedObject.Exists (c : CachedObject) : Bool := c.object.isSome

/-- Go `CachedObject.Get()`. -/
def CachedObject.Get (c : CachedObject) : Option Milestone := c.object

/-- Go `CachedObject.Release(force)`: gives back one consumer of the entry. -/
def CachedObject.Release (c : CachedObject) (os : ObjectStorage) (force : Bool) : ObjectStorage :=
  { os with
      consumers := fun k => if k = c.key then os.consumers k - 1 else os.consumers k
      calls := os.calls ++ [.release c.key force] }

/-- Go `ObjectStorage.StoreIfAbsent(object)`: when an object exists under the key nothing
is stored and the returned handle is nil; otherwise the object is stored and a handle
with one consumer is returned. -/
def ObjectStorage.StoreIfAbsent (os : ObjectStorage) (object : Milestone) :
    ObjectStorage × Option CachedObject × Bool :=
  let key := object.ObjectStorageKey.elems
  match os.objects key with
  | some _ => ({ os with calls := os.calls ++ [.storeIfAbsent key] }, none, false)
  | none =>
    ({ os with
        objects := fun k => if k = key then some object else os.objects k
        consumers := fun k => if k = key then os.consumers k + 1 else os.consumers k
        calls := os.calls ++ [.storeIfAbsent key] },
     some ⟨key, some object⟩, true)

/-- The loop of `ObjectStorage.ForEachKeyOnly`: hands each key to the consumer, which
updates the variables it captured (`σ`) and stops the iteration by returning `false`. -/
def forEachKey {σ : Type} (consumer : σ → ByteSlice → Except GoPanic (σ × Bool)) :
    List ByteSlice → σ → Except GoPanic σ
  | [], st => .ok st
  | key :: keys, st =>
    match consumer st key with
    | .error p => .error p
    | .ok (st1, true) => forEachKey consumer keys st1
    | .ok (st1, false) => .ok st1

/-- Go `ObjectStorage.ForEachKeyOnly(consumer, WithIteratorSkipCache(true))`: iterates the
keys of the underlying store. -/
def ObjectStorage.ForEachKeyOnly {σ : Type} (os : ObjectStorage)
    (consumer : σ → ByteSlice → Except GoPanic (σ × Bool)) (init : σ) : Except GoPanic σ :=
  forEachKey consumer os.storeKeys init

/-! ## The storage façade -/

/-- The struct `Storage`, reduced to its milestone storage. -/
structure Storage where
  milestoneStorage : ObjectStorage

/-- The struct `CachedMilestone`: it embeds a `CachedObject` interface value, which may be
nil (`none`). -/
structure CachedMilestone where
  CachedObject : Option Hornet.CachedObject
  deriving DecidableEq, Repr

/-- Go `(*CachedMilestone).Milestone`: `c.Get().(*Milestone)`. -/
def CachedMilestone.Milestone (c : CachedMilestone) : Except GoPanic Milestone :=
  match c.CachedObject with
  | none => .error .nilInterface
  | some co =>
    match co.Get with
    | none => .error .nilInterface
    | some ms => .ok ms

/-- The promoted method `Release` of a `CachedMilestone`. -/
def CachedMilestone.Release (c : CachedMilestone) (s : Storage) (force : Bool) :
    Except GoPanic Storage :=
  match c.CachedObject with
  | none => .error .nilInterface
  | some co => .ok ⟨co.Release s.milestoneStorage force⟩

/-- Go `(*Storage).CachedMilestoneOrNil`. -/
def Storage.CachedMilestoneOrNil (s : Storage) (milestoneIndex : Nat) :
    Storage × Option CachedMilestone :=
  let (os1, cachedMilestone) := s.milestoneStorage.Load (databaseKeyForMilestoneIndex milestoneIndex)
  if !cachedMilestone.Exists then
    (⟨cachedMilestone.Release os1 true⟩, none)
  else
    (⟨os1⟩, some ⟨some cachedMilestone⟩)

/-- Go `(*Storage).MilestoneTimestampByIndex`; the deferred `Release` runs after the
result has been evaluated. -/
def Storage.MilestoneTimestampByIndex (s : Storage) (milestoneIndex : Nat) :
    Except GoPanic (Storage × Time × Option GoError) :=
  match s.CachedMilestoneOrNil milestoneIndex with
  | (s1, none) => .ok (s1, Time.zero, some ErrMilestoneNotFound)
  | (s1, some cachedMilestone) => do
    let ms ← cachedMilestone.Milestone
    let s2 ← cachedMilestone.Release s1 true
    return (s2, ms.Timestamp, none)

/-- Go `(*Storage).MilestoneTimestampUnixByIndex`; the deferred `Release` runs after the
result has been evaluated. -/
def Storage.MilestoneTimestampUnixByIndex (s : Storage) (milestoneIndex : Nat) :
    Except GoPanic (Storage × Int × Option GoError) :=
  match s.CachedMilestoneOrNil milestoneIndex with
  | (s1, none) => .ok (s1, 0, some ErrMilestoneNotFound)
  | (s1, some cachedMilestone) => do
    let ms ← cachedMilestone.Milestone
    let s2 ← cachedMilestone.Release s1 true
    return (s2, ms.Timestamp.Unix, none)

/-- The function literal handed to `ForEachKeyOnly` by `SearchLatestMilestoneIndexInStore`:
it raises the captured `latestMilestoneIndex` to the index of the key and always asks for
the next key. -/
def latestIndexConsumer (latestMilestoneIndex : Nat) (key : ByteSlice) :
    Except GoPanic (Nat × Bool) := do
  let msIndex ← milestoneIndexFromDatabaseKey key
  let latest := if latestMilestoneIndex < msIndex then msIndex else latestMilestoneIndex
  return (latest, true)

/-- Go `(*Storage).SearchLatestMilestoneIndexInStore`: the captured variable
`latestMilestoneIndex` is the state of the iteration. -/
def Storage.SearchLatestMilestoneIndexInStore (s : Storage) : Except GoPanic Nat :=
  s.milestoneStorage.ForEachKeyOnly latestIndexConsumer 0

/-- Go `(*Storage).StoreMilestoneIfAbsent`. -/
def Storage.StoreMilestoneIfAbsent (s : Storage) (index : Nat) (messageID : MessageID)
    (timestamp : Time) : Storage × Option CachedMilestone × Bool :=
  let (os1, cachedMilestone, newlyAdded) :=
    s.milestoneStorage.StoreIfAbsent ⟨index, messageID, timestamp⟩
  if !newlyAdded then
    (⟨os1⟩, none, false)
  else
    (⟨os1⟩, some ⟨cachedMilestone⟩, newlyAdded)

/-- The storage after one `Load` of the key of `i`. -/
def afterLoad (s : Storage) (i : Nat) : ObjectStorage :=
  (s.milestoneStorage.Load (databaseKeyForMilestoneIndex i)).1

/-- The handle returned by the `Load` of the key of `i`. -/
def loaded (s : Storage) (i : Nat) : CachedObject :=
  (s.milestoneStorage.Load (databaseKeyForMilestoneIndex i)).2

/-! ## Sample values -/

/-- The message ID `0x00…01`. -/
def sampleMessageID : MessageID := List.replicate 31 0 ++ [1]

/-- The milestone of index 100 with message ID `0x00…01` and timestamp 1700000000. -/
def sampleMilestone : Milestone := ⟨100, sampleMessageID, timeUnix 1700000000 0⟩

/-- The same milestone half a second later. -/
def subSecondMilestone : Milestone :=
  ⟨100, sampleMessageID, ⟨sampleMilestone.Timestamp.sec, 500000000⟩⟩

/-- The encoded value of the sample milestone without its last byte. -/
def truncatedValue : ByteSlice := ⟨sampleMilestone.ObjectStorageValue.elems.take 39, []⟩

/-! ## Arithmetic of the byte codec -/

theorem lor_shiftLeft_eq_add (x a k : Nat) (h : x < 2 ^ k) : x ||| a <<< k = x + a * 2 ^ k := by
  rw [Nat.shiftLeft_eq, Nat.lor_comm, Nat.mul_comm a, ← Nat.mul_add_lt_is_or h]
  omega

theorem Uint32_cons (b0 b1 b2 b3 : Byte) (rest spare : List Byte) :
    Uint32 ⟨b0 :: b1 :: b2 :: b3 :: rest, spare⟩
      = .ok (b0.val + b1.val * 2 ^ 8 + b2.val * 2 ^ 16 + b3.val * 2 ^ 24) := by
  have h0 := b0.isLt
  have h1 := b1.isLt
  have h2 := b2.isLt
  have h3 := b3.isLt
  simp only [Uint32]
  rw [lor_shiftLeft_eq_add _ _ 8 (by omega), lor_shiftLeft_eq_add _ _ 16 (by omega),
    lor_shiftLeft_eq_add _ _ 24 (by omega)]

theorem key_roundtrip (i : Nat) :
    milestoneIndexFromDatabaseKey (databaseKeyForMilestoneIndex i) = .ok (i % 2 ^ 32) := by
  simp only [milestoneIndexFromDatabaseKey, databaseKeyForMilestoneIndex, PutUint32, make,
    List.cons_append, List.nil_append, Uint32_cons, toByte, toUint32, Nat.shiftRight_eq_div_pow]
  congr 1
  omega


theorem Uint64_cons (b0 b1 b2 b3 b4 b5 b6 b7 : Byte) (rest spare : List Byte) :
    Uint64 ⟨b0 :: b1 :: b2 :: b3 :: b4 :: b5 :: b6 :: b7 :: rest, spare⟩
      = .ok (b0.val + b1.val * 2 ^ 8 + b2.val * 2 ^ 16 + b3.val * 2 ^ 24
          + b4.val * 2 ^ 32 + b5.val * 2 ^ 40 + b6.val * 2 ^ 48 + b7.val * 2 ^ 56) := by
  have h0 := b0.isLt
  have h1 := b1.isLt
  have h2 := b2.isLt
  have h3 := b3.isLt
  have h4 := b4.isLt
  have h5 := b5.isLt
  have h6 := b6.isLt
  have h7 := b7.isLt
  simp only [Uint64]
  rw [lor_shiftLeft_eq_add _ _ 8 (by omega), lor_shiftLeft_eq_add _ _ 16 (by omega),
    lor_shiftLeft_eq_add _ _ 24 (by omega), lor_shiftLeft_eq_add _ _ 32 (by omega),
    lor_shiftLeft_eq_add _ _ 40 (by omega), lor_shiftLeft_eq_add _ _ 48 (by omega),
    lor_shiftLeft_eq_add _ _ 56 (by omega)]

/-- The eight bytes written by `PutUint64` into a fresh buffer. -/
theorem PutUint64_make (v : Nat) (h : 8 ≤ (make 8).len) :
    (PutUint64 (make 8) v h).elems
      = [toByte v, toByte (v >>> 8), toByte (v >>> 16), toByte (v >>> 24),
         toByte (v >>> 32), toByte (v >>> 40), toByte (v >>> 48), toByte (v >>> 56)] := by
  simp [PutUint64, make]

theorem Uint64_PutUint64 (v : Nat) (h : 8 ≤ (make 8).len) (spare : List Byte) :
    Uint64 ⟨(PutUint64 (make 8) v h).elems, spare⟩ = .ok (v % 2 ^ 64) := by
  rw [PutUint64_make, Uint64_cons]
  simp only [toByte, Nat.shiftRight_eq_div_pow]
  congr 1
  omega

theorem toInt64_toUint64 (x : Int) : toInt64 (toUint64 x) = wrapInt64 x := by
  unfold toInt64 toUint64 wrapInt64
  have h : ((x % 2 ^ 64).toNat % 2 ^ 64 : Nat) = (x % 2 ^ 64).toNat := by omega
  rw [h]
  split <;> omega

theorem wrapInt64_of_range (x : Int) (h : -2 ^ 63 ≤ x ∧ x < 2 ^ 63) : wrapInt64 x = x := by
  unfold wrapInt64
  omega

theorem timeUnix_zero_nsec (sec : Int) : timeUnix sec 0 = ⟨wrapInt64 (sec + unixToInternal), 0⟩ := by
  simp [timeUnix]

/-- What the codec makes of a timestamp: the internal second count, wrapped to `int64`,
and no nanoseconds. -/
theorem timeUnix_Unix (t : Time) :
    timeUnix (toInt64 (toUint64 t.Unix)) 0 = ⟨wrapInt64 t.sec, 0⟩ := by
  rw [timeUnix_zero_nsec, toInt64_toUint64]
  simp only [Time.Unix, wrapInt64, internalToUnix, unixToInternal]
  congr 1
  omega

theorem value_slice_id (id b8 : List Byte) (hid : id.length = 32) (h8 : b8.length = 8) :
    (ConcatBytes [id, b8]).slice 0 MessageIDLength = .ok ⟨id, b8⟩ := by
  simp [ConcatBytes, ByteSlice.slice, ByteSlice.cap, MessageIDLength, hid, h8,
    List.take_append_eq_append_take, List.drop_append_eq_append_drop]

theorem value_slice_ts (id b8 : List Byte) (hid : id.length = 32) (h8 : b8.length = 8) :
    (ConcatBytes [id, b8]).slice MessageIDLength (MessageIDLength + UInt64ByteSize)
      = .ok ⟨b8, []⟩ := by
  simp [ConcatBytes, ByteSlice.slice, ByteSlice.cap, MessageIDLength, UInt64ByteSize, hid, h8,
    List.take_append_eq_append_take, List.drop_append_eq_append_drop]

/-- The factory applied to the encoding of a milestone with a 32-byte message ID. -/
theorem milestoneFactory_encode (ms : Milestone) (hid : ms.MessageID.length = 32) :
    milestoneFactory ms.ObjectStorageKey ms.ObjectStorageValue
      = .ok (some ⟨ms.Index % 2 ^ 32, ms.MessageID, ⟨wrapInt64 ms.Timestamp.sec, 0⟩⟩, none) := by
  have h8 : (PutUint64 (make 8) (toUint64 ms.Timestamp.Unix) (by decide)).elems.length = 8 := by
    rw [PutUint64_make]; rfl
  simp only [milestoneFactory, Milestone.ObjectStorageKey, Milestone.ObjectStorageValue,
    key_roundtrip, value_slice_id _ _ hid h8, value_slice_ts _ _ hid h8, Uint64_PutUint64]
  simp [bind, Except.bind, MessageIDFromSlice, ByteSlice.len, hid, MessageIDLength, pure,
    Except.pure]
  rw [Uint64_PutUint64]
  have hmod : toUint64 ms.Timestamp.Unix % 2 ^ 64 = toUint64 ms.Timestamp.Unix := by
    unfold toUint64
    omega
  simp only [hmod, timeUnix_Unix]

theorem ObjectStorageValue_elems (ms : Milestone) :
    ms.ObjectStorageValue.elems
      = ms.MessageID ++ (PutUint64 (make 8) (toUint64 ms.Timestamp.Unix) (by decide)).elems := by
  simp [Milestone.ObjectStorageValue, ConcatBytes]

/-- The factory never returns a non-nil error, and what it returns is a milestone. -/
theorem milestoneFactory_ok (key data : ByteSlice) (r : Option Milestone × Option GoError)
    (h : milestoneFactory key data = .ok r) : r.1.isSome = true ∧ r.2 = none := by
  simp only [milestoneFactory, bind, Except.bind, pure, Except.pure] at h
  split at h
  · cases h
  · split at h
    · cases h
    · split at h
      · cases h
      · split at h
        · cases h
        · split at h
          · cases h
          · cases h
            exact ⟨rfl, rfl⟩

/-! ## The lookups on the storage state -/

theorem CachedMilestoneOrNil_absent (s : Storage) (i : Nat)
    (h : (loaded s i).Exists = false) :
    s.CachedMilestoneOrNil i = (⟨(loaded s i).Release (afterLoad s i) true⟩, none) := by
  simp only [loaded] at h
  simp [Storage.CachedMilestoneOrNil, h, loaded, afterLoad]

theorem CachedMilestoneOrNil_present (s : Storage) (i : Nat)
    (h : (loaded s i).Exists = true) :
    s.CachedMilestoneOrNil i = (⟨afterLoad s i⟩, some ⟨some (loaded s i)⟩) := by
  simp only [loaded] at h
  simp [Storage.CachedMilestoneOrNil, h, loaded, afterLoad]

theorem loaded_Get_of_Exists (s : Storage) (i : Nat) (h : (loaded s i).Exists = true) :
    ∃ ms, (loaded s i).Get = some ms := by
  simp only [CachedObject.Exists, Option.isSome_iff_exists] at h
  exact h

theorem MilestoneTimestampByIndex_absent (s : Storage) (i : Nat)
    (h : (loaded s i).Exists = false) :
    s.MilestoneTimestampByIndex i
      = .ok (⟨(loaded s i).Release (afterLoad s i) true⟩, Time.zero, some ErrMilestoneNotFound) := by
  simp [Storage.MilestoneTimestampByIndex, CachedMilestoneOrNil_absent s i h]

theorem MilestoneTimestampByIndex_present (s : Storage) (i : Nat) (ms : Milestone)
    (h : (loaded s i).Get = some ms) :
    s.MilestoneTimestampByIndex i
      = .ok (⟨(loaded s i).Release (afterLoad s i) true⟩, ms.Timestamp, none) := by
  have hex : (loaded s i).Exists = true := by
    simp only [CachedObject.Get] at h
    simp [CachedObject.Exists, h]
  simp [Storage.MilestoneTimestampByIndex, CachedMilestoneOrNil_present s i hex,
    CachedMilestone.Milestone, CachedMilestone.Release, h, bind, Except.bind, pure, Except.pure]

theorem MilestoneTimestampUnixByIndex_absent (s : Storage) (i : Nat)
    (h : (loaded s i).Exists = false) :
    s.MilestoneTimestampUnixByIndex i
      = .ok (⟨(loaded s i).Release (afterLoad s i) true⟩, 0, some ErrMilestoneNotFound) := by
  simp [Storage.MilestoneTimestampUnixByIndex, CachedMilestoneOrNil_absent s i h]

theorem MilestoneTimestampUnixByIndex_present (s : Storage) (i : Nat) (ms : Milestone)
    (h : (loaded s i).Get = some ms) :
    s.MilestoneTimestampUnixByIndex i
      = .ok (⟨(loaded s i).Release (afterLoad s i) true⟩, ms.Timestamp.Unix, none) := by
  have hex : (loaded s i).Exists = true := by
    simp only [CachedObject.Get] at h
    simp [CachedObject.Exists, h]
  simp [Storage.MilestoneTimestampUnixByIndex, CachedMilestoneOrNil_present s i hex,
    CachedMilestone.Milestone, CachedMilestone.Release, h, bind, Except.bind, pure, Except.pure]

/-- A `Release` after the `Load` restores every consumer count. -/
theorem release_afterLoad_consumers (s : Storage) (i : Nat) (k : List Byte) :
    ((loaded s i).Release (afterLoad s i) true).consumers k = s.milestoneStorage.consumers k := by
  simp only [CachedObject.Release, loaded, afterLoad, ObjectStorage.Load]
  split <;> omega

theorem release_afterLoad_calls (s : Storage) (i : Nat) :
    ((loaded s i).Release (afterLoad s i) true).calls
      = s.milestoneStorage.calls ++ [.load (databaseKeyForMilestoneIndex i).elems,
          .release (databaseKeyForMilestoneIndex i).elems true] := by
  simp [CachedObject.Release, loaded, afterLoad, ObjectStorage.Load]

theorem key_codec_small (i : Nat) (hi : i < 2 ^ 32) :
    milestoneIndexFromDatabaseKey (databaseKeyForMilestoneIndex i) = .ok i := by
  rw [key_roundtrip, Nat.mod_eq_of_lt hi]

/-! ## The scan for the latest index -/

theorem decode_of_len_four (k : ByteSlice) (h : k.len = 4) :
    ∃ i, milestoneIndexFromDatabaseKey k = .ok i := by
  obtain ⟨ke, ks⟩ := k
  match ke, h with
  | [a, b, c, d], _ => exact ⟨_, Uint32_cons a b c d [] ks⟩

/-- The scan from `st` over 4-byte keys returns a value that bounds `st` and every decoded
index, and that is `st` or one of the decoded indices. -/
theorem forEachKey_latest (keys : List ByteSlice) :
    ∀ st : Nat, (∀ k ∈ keys, k.len = 4) →
      ∃ r, forEachKey latestIndexConsumer keys st = .ok r ∧ st ≤ r ∧
        (∀ k ∈ keys, ∀ i, milestoneIndexFromDatabaseKey k = .ok i → i ≤ r) ∧
        (r = st ∨ ∃ k ∈ keys, milestoneIndexFromDatabaseKey k = .ok r) := by
  induction keys with
  | nil =>
    intro st _
    exact ⟨st, rfl, Nat.le_refl _, by simp, Or.inl rfl⟩
  | cons key keys ih =>
    intro st hlen
    obtain ⟨i, hi⟩ := decode_of_len_four key (hlen key (List.mem_cons_self _ _))
    obtain ⟨r, hr, hle, hub, hatt⟩ :=
      ih (if st < i then i else st) (fun k hk => hlen k (List.mem_cons_of_mem _ hk))
    refine ⟨r, ?_, ?_, ?_, ?_⟩
    · simp only [forEachKey, latestIndexConsumer, hi, bind, Except.bind, pure, Except.pure]
      exact hr
    · split at hle <;> omega
    · intro k hk j hj
      rcases List.mem_cons.mp hk with rfl | hk
      · rw [hi] at hj
        cases hj
        split at hle <;> omega
      · exact hub k hk j hj
    · rcases hatt with h | ⟨k, hk, hkr⟩
      · by_cases hlt : st < i
        · rw [if_pos hlt] at h
          exact Or.inr ⟨key, List.mem_cons_self _ _, by rw [h]; exact hi⟩
        · rw [if_neg hlt] at h
          exact Or.inl h
      · exact Or.inr ⟨k, List.mem_cons_of_mem _ hk, hkr⟩

/-! ## The claims -/

/-- C1: for every milestone index in the `uint32` range, decoding the database key of the
index gives the index back, and two such indices with the same key are equal. -/
theorem key_codec_lossless (i : Nat) (hi : i < 2 ^ 32) :
    milestoneIndexFromDatabaseKey (databaseKeyForMilestoneIndex i) = .ok i ∧
    ∀ j, j < 2 ^ 32 → databaseKeyForMilestoneIndex j = databaseKeyForMilestoneIndex i → j = i := by
  have hrt : ∀ k, k < 2 ^ 32 →
      milestoneIndexFromDatabaseKey (databaseKeyForMilestoneIndex k) = .ok k := by
    intro k hk
    rw [key_roundtrip, Nat.mod_eq_of_lt hk]
  refine ⟨hrt i hi, ?_⟩
  intro j hj hkey
  have h := hrt j hj
  rw [hkey, hrt i hi] at h
  injection h with h
  exact h.symm

theorem key_codec_lossless_witness :
    (305419896 < 2 ^ 32) ∧
    milestoneIndexFromDatabaseKey (databaseKeyForMilestoneIndex 305419896) = .ok 305419896 :=
  ⟨by decide, (key_codec_lossless 305419896 (by decide)).1⟩

/-- C2, as stated, fails: the milestone of index 100 with a 32-byte message ID and a
timestamp half a second after 1700000000 is encoded and decoded without panic or error,
but the decoded timestamp differs from the original one. -/
theorem factory_roundtrip_drops_subsecond :
    subSecondMilestone.MessageID.length = 32 ∧
    ∃ m, milestoneFactory subSecondMilestone.ObjectStorageKey subSecondMilestone.ObjectStorageValue
        = .ok (some m, none) ∧
      m.Timestamp ≠ subSecondMilestone.Timestamp :=
  ⟨rfl, ⟨100, sampleMessageID, ⟨sampleMilestone.Timestamp.sec, 0⟩⟩,
    by rw [milestoneFactory_encode subSecondMilestone rfl]; rfl,
    fun h => absurd (congrArg Time.nsec h) (by decide)⟩

/-- C2, amended: for every milestone with a 32-byte message ID, a `uint32` index and an
`int64` second count, the factory applied to its encoded key and value succeeds with a nil
error and returns the same index and message ID and the timestamp truncated to the whole
second; this is the milestone itself when its timestamp has no sub-second part. -/
theorem factory_roundtrip_whole_seconds (v : Milestone) (hid : v.MessageID.length = 32)
    (hidx : v.Index < 2 ^ 32) (hsec : -2 ^ 63 ≤ v.Timestamp.sec ∧ v.Timestamp.sec < 2 ^ 63) :
    milestoneFactory v.ObjectStorageKey v.ObjectStorageValue
      = .ok (some ⟨v.Index, v.MessageID, ⟨v.Timestamp.sec, 0⟩⟩, none) ∧
    (v.Timestamp.nsec = 0 →
      milestoneFactory v.ObjectStorageKey v.ObjectStorageValue = .ok (some v, none)) := by
  have h : milestoneFactory v.ObjectStorageKey v.ObjectStorageValue
      = .ok (some ⟨v.Index, v.MessageID, ⟨v.Timestamp.sec, 0⟩⟩, none) := by
    rw [milestoneFactory_encode v hid, Nat.mod_eq_of_lt hidx, wrapInt64_of_range _ hsec]
  refine ⟨h, ?_⟩
  intro hn
  rw [h]
  obtain ⟨idx, id, ⟨sec, nsec⟩⟩ := v
  simp only at hn
  subst hn
  rfl

theorem factory_roundtrip_whole_seconds_witness :
    milestoneFactory sampleMilestone.ObjectStorageKey sampleMilestone.ObjectStorageValue
      = .ok (some sampleMilestone, none) :=
  (factory_roundtrip_whole_seconds sampleMilestone rfl (by decide) (by decide)).2 rfl

/-- C3: for every milestone with a 32-byte message ID the key has 4 bytes and the value 40
bytes; the first 32 bytes of the value are the message ID and the last 8 bytes are the Unix
second count modulo 2^64, least significant byte first. -/
theorem persisted_layout (ms : Milestone) (hid : ms.MessageID.length = 32) :
    ms.ObjectStorageKey.len = 4 ∧
    ms.ObjectStorageValue.len = 40 ∧
    ms.ObjectStorageValue.elems.take 32 = ms.MessageID ∧
    (ms.ObjectStorageValue.elems.drop 32).map Fin.val
      = (List.range 8).map fun k => (ms.Timestamp.Unix % 2 ^ 64).toNat / 256 ^ k % 256 := by
  refine ⟨rfl, ?_, ?_, ?_⟩
  · simp [ByteSlice.len, ObjectStorageValue_elems, PutUint64_make, hid]
  · rw [ObjectStorageValue_elems, ← hid, List.take_left']
    rfl
  · rw [ObjectStorageValue_elems, ← hid, List.drop_left', PutUint64_make]
    simp [toByte, toUint64, Nat.shiftRight_eq_div_pow, List.range, List.range.loop]
    rfl

theorem persisted_layout_witness :
    sampleMilestone.ObjectStorageKey.len = 4 ∧ sampleMilestone.ObjectStorageValue.len = 40 :=
  ⟨(persisted_layout sampleMilestone rfl).1, (persisted_layout sampleMilestone rfl).2.1⟩

/-- C4, as stated, fails: for a 4-byte key and the sample value cut to 39 bytes the factory
returns no error value; it panics on the slice expression `data[32:40]`. -/
theorem factory_truncated_no_error :
    (databaseKeyForMilestoneIndex 100).len = 4 ∧ truncatedValue.len < 40 ∧
    milestoneFactory (databaseKeyForMilestoneIndex 100) truncatedValue
      = .error (.sliceBounds 40 39) ∧
    ¬ ∃ e, milestoneFactory (databaseKeyForMilestoneIndex 100) truncatedValue
      = .ok (none, some e) := by
  have h : milestoneFactory (databaseKeyForMilestoneIndex 100) truncatedValue
      = .error (.sliceBounds 40 39) := rfl
  refine ⟨rfl, by decide, h, ?_⟩
  rintro ⟨e, he⟩
  rw [h] at he
  cases he

/-- C4, amended: for every 4-byte key and every value whose capacity is below 40 bytes (so
every value shorter than 40 bytes without spare capacity) the factory yields neither a
milestone nor an error value: it panics on the slice expression that leaves the value, at
bound 32 when the capacity is below 32 and at bound 40 otherwise. On every input on which
the factory returns, the error is nil and the result is a milestone. -/
theorem factory_truncated_panics (key data : ByteSlice) (hk : key.len = 4)
    (hd : data.cap < 40) :
    milestoneFactory key data
      = .error (.sliceBounds (if data.cap < 32 then 32 else 40) data.cap) ∧
    ∀ (k d : ByteSlice) (r : Option Milestone × Option GoError),
      milestoneFactory k d = .ok r → r.1.isSome = true ∧ r.2 = none := by
  refine ⟨?_, milestoneFactory_ok⟩
  obtain ⟨ke, ks⟩ := key
  match ke, hk with
  | [a, b, c, d], _ =>
    simp only [milestoneFactory, milestoneIndexFromDatabaseKey, Uint32_cons, bind, Except.bind]
    by_cases hc : data.cap < 32
    · simp [ByteSlice.slice, hc, MessageIDLength]
    · have hlen : 32 ≤ (data.elems ++ data.spare).length := by
        simp only [ByteSlice.cap] at hc
        simp only [List.length_append]
        omega
      simp [ByteSlice.slice, hc, hd, MessageIDLength, UInt64ByteSize, MessageIDFromSlice,
        ByteSlice.len, List.length_take, hlen]
      simp only [ByteSlice.cap] at hc
      rw [if_neg hc]

theorem factory_truncated_panics_witness :
    milestoneFactory (databaseKeyForMilestoneIndex 100) truncatedValue
      = .error (.sliceBounds (if truncatedValue.cap < 32 then 32 else 40) truncatedValue.cap) :=
  (factory_truncated_panics (databaseKeyForMilestoneIndex 100) truncatedValue rfl
    (by decide)).1

/-- C10: for every milestone with a 32-byte message ID the factory applied to its encoded
key and value returns a timestamp with the same Unix second count and no nanoseconds, and
changing only the sub-second part of the timestamp leaves the encoded value unchanged. -/
theorem codec_keeps_whole_seconds (ms : Milestone) (hid : ms.MessageID.length = 32) :
    (∃ m, milestoneFactory ms.ObjectStorageKey ms.ObjectStorageValue = .ok (some m, none) ∧
      m.Timestamp.Unix = ms.Timestamp.Unix ∧ m.Timestamp.nsec = 0) ∧
    ∀ nsec : Nat,
      ({ ms with Timestamp := ⟨ms.Timestamp.sec, nsec⟩ } : Milestone).ObjectStorageValue
        = ms.ObjectStorageValue := by
  refine ⟨⟨_, milestoneFactory_encode ms hid, ?_, rfl⟩, fun _ => rfl⟩
  simp only [Time.Unix, wrapInt64]
  omega

theorem codec_keeps_whole_seconds_witness :
    ∃ m, milestoneFactory subSecondMilestone.ObjectStorageKey
        subSecondMilestone.ObjectStorageValue = .ok (some m, none) ∧
      m.Timestamp.Unix = subSecondMilestone.Timestamp.Unix ∧ m.Timestamp.nsec = 0 :=
  (codec_keeps_whole_seconds subSecondMilestone rfl).1

/-- C8: for every milestone and every argument, `Update` does not return normally: it ends
in a panic carrying the formatted message, and the receiver is the same afterwards. -/
theorem update_always_panics {α : Type} (ms : Milestone) (other : α) :
    (ms.Update other).2 = .error (.message
      ("Milestone should never be updated: " ++ ToHex ms.MessageID ++ " ("
        ++ toString ms.Index ++ ")")) ∧
    (ms.Update other).2 ≠ .ok () ∧
    (ms.Update other).1 = ms := by
  refine ⟨rfl, ?_, rfl⟩
  intro h
  cases h

/-- C6, as stated, fails: after the sample milestone has been stored, a second call for
index 100 returns inserted=false with a nil handle, not a handle to the stored
milestone. -/
theorem store_if_absent_existing_returns_nil :
    ((Storage.mk ObjectStorage.empty).StoreMilestoneIfAbsent 100 sampleMessageID
        (timeUnix 1700000000 0)).1.milestoneStorage.objects
      (databaseKeyForMilestoneIndex 100).elems = some sampleMilestone ∧
    (((Storage.mk ObjectStorage.empty).StoreMilestoneIfAbsent 100 sampleMessageID
        (timeUnix 1700000000 0)).1.StoreMilestoneIfAbsent 100 sampleMessageID
        (timeUnix 1700000000 0)).2 = (none, false) :=
  ⟨rfl, rfl⟩

/-- C6, amended: when a milestone exists under the key of the index, `StoreMilestoneIfAbsent`
returns a nil handle and inserted=false, and keeps the stored objects and consumer counts;
when none exists it returns inserted=true and a handle to the new milestone built from
(index, messageID, timestamp), which is stored with one more consumer. -/
theorem store_if_absent_result (s : Storage) (index : Nat) (messageID : MessageID)
    (timestamp : Time) :
    (∀ old, s.milestoneStorage.objects (databaseKeyForMilestoneIndex index).elems = some old →
      (s.StoreMilestoneIfAbsent index messageID timestamp).2 = (none, false) ∧
      (s.StoreMilestoneIfAbsent index messageID timestamp).1.milestoneStorage.objects
        = s.milestoneStorage.objects ∧
      (s.StoreMilestoneIfAbsent index messageID timestamp).1.milestoneStorage.consumers
        = s.milestoneStorage.consumers) ∧
    (s.milestoneStorage.objects (databaseKeyForMilestoneIndex index).elems = none →
      (s.StoreMilestoneIfAbsent index messageID timestamp).2
        = (some ⟨some ⟨(databaseKeyForMilestoneIndex index).elems,
            some ⟨index, messageID, timestamp⟩⟩⟩, true) ∧
      (s.StoreMilestoneIfAbsent index messageID timestamp).1.milestoneStorage.objects
          (databaseKeyForMilestoneIndex index).elems = some ⟨index, messageID, timestamp⟩ ∧
      (s.StoreMilestoneIfAbsent index messageID timestamp).1.milestoneStorage.consumers
          (databaseKeyForMilestoneIndex index).elems
        = s.milestoneStorage.consumers (databaseKeyForMilestoneIndex index).elems + 1) := by
  constructor
  · intro old hold
    simp [Storage.StoreMilestoneIfAbsent, ObjectStorage.StoreIfAbsent,
      Milestone.ObjectStorageKey, hold]
  · intro hnone
    simp [Storage.StoreMilestoneIfAbsent, ObjectStorage.StoreIfAbsent,
      Milestone.ObjectStorageKey, hnone]

theorem store_if_absent_result_witness :
    ((Storage.mk ObjectStorage.empty).StoreMilestoneIfAbsent 100 sampleMessageID
        (timeUnix 1700000000 0)).2
      = (some ⟨some ⟨(databaseKeyForMilestoneIndex 100).elems, some sampleMilestone⟩⟩, true) :=
  ((store_if_absent_result (Storage.mk ObjectStorage.empty) 100 sampleMessageID
    (timeUnix 1700000000 0)).2 rfl).1

/-- C7: for every index, `MilestoneTimestampByIndex` returns; the error is
`ErrMilestoneNotFound` exactly when the loaded entry does not exist, then with the zero
time, and otherwise the result is the stored milestone's timestamp with a nil error. With
milestone 100 stored with timestamp 1700000000 the lookup of 100 gives 1700000000 and the
lookup of 101 gives `ErrMilestoneNotFound`. -/
theorem timestamp_by_index (s : Storage) (i : Nat) :
    (∃ s1 t e, s.MilestoneTimestampByIndex i = .ok (s1, t, e) ∧
      (e = some ErrMilestoneNotFound ↔ (loaded s i).Exists = false) ∧
      (e = some ErrMilestoneNotFound → t = Time.zero) ∧
      (∀ ms, (loaded s i).Get = some ms → t = ms.Timestamp ∧ e = none)) ∧
    (((Storage.mk ObjectStorage.empty).StoreMilestoneIfAbsent 100 sampleMessageID
        (timeUnix 1700000000 0)).1.MilestoneTimestampByIndex 100).map
      (fun r => (r.2.1.Unix, r.2.2)) = .ok (1700000000, none) ∧
    (((Storage.mk ObjectStorage.empty).StoreMilestoneIfAbsent 100 sampleMessageID
        (timeUnix 1700000000 0)).1.MilestoneTimestampUnixByIndex 100).map
      (fun r => r.2) = .ok (1700000000, none) ∧
    (((Storage.mk ObjectStorage.empty).StoreMilestoneIfAbsent 100 sampleMessageID
        (timeUnix 1700000000 0)).1.MilestoneTimestampByIndex 101).map
      (fun r => r.2) = .ok (Time.zero, some ErrMilestoneNotFound) := by
  refine ⟨?_, rfl, rfl, rfl⟩
  cases hex : (loaded s i).Exists
  · refine ⟨_, _, _, MilestoneTimestampByIndex_absent s i hex, by simp, fun _ => rfl, ?_⟩
    intro ms hms
    simp [CachedObject.Exists, CachedObject.Get] at hex hms
    simp [hex] at hms
  · obtain ⟨ms, hms⟩ := loaded_Get_of_Exists s i hex
    refine ⟨_, _, _, MilestoneTimestampByIndex_present s i ms hms, by simp, by simp, ?_⟩
    intro ms1 hms1
    rw [hms] at hms1
    cases hms1
    exact ⟨rfl, rfl⟩

/-- C9: `CachedMilestoneOrNil` performs one `Load`; when the entry does not exist it
performs one `Release` after it, returns nil and leaves every consumer count as it was;
when the entry exists it performs no `Release`, returns the handle and leaves the entry
with one more consumer and the other entries as they were. `MilestoneTimestampByIndex` and
`MilestoneTimestampUnixByIndex` return with every consumer count as before the call. -/
theorem lookup_consumer_balance (s : Storage) (i : Nat) :
    ((loaded s i).Exists = false →
      (s.CachedMilestoneOrNil i).2 = none ∧
      (s.CachedMilestoneOrNil i).1.milestoneStorage.calls
        = s.milestoneStorage.calls ++ [.load (databaseKeyForMilestoneIndex i).elems,
            .release (databaseKeyForMilestoneIndex i).elems true] ∧
      ∀ k, (s.CachedMilestoneOrNil i).1.milestoneStorage.consumers k
        = s.milestoneStorage.consumers k) ∧
    ((loaded s i).Exists = true →
      (s.CachedMilestoneOrNil i).2 = some ⟨some (loaded s i)⟩ ∧
      (s.CachedMilestoneOrNil i).1.milestoneStorage.calls
        = s.milestoneStorage.calls ++ [.load (databaseKeyForMilestoneIndex i).elems] ∧
      (s.CachedMilestoneOrNil i).1.milestoneStorage.consumers (databaseKeyForMilestoneIndex i).elems
        = s.milestoneStorage.consumers (databaseKeyForMilestoneIndex i).elems + 1 ∧
      ∀ k, k ≠ (databaseKeyForMilestoneIndex i).elems →
        (s.CachedMilestoneOrNil i).1.milestoneStorage.consumers k
          = s.milestoneStorage.consumers k) ∧
    (∃ s1 t e, s.MilestoneTimestampByIndex i = .ok (s1, t, e) ∧
      ∀ k, s1.milestoneStorage.consumers k = s.milestoneStorage.consumers k) ∧
    (∃ s1 t e, s.MilestoneTimestampUnixByIndex i = .ok (s1, t, e) ∧
      ∀ k, s1.milestoneStorage.consumers k = s.milestoneStorage.consumers k) := by
  refine ⟨?_, ?_, ?_, ?_⟩
  · intro hex
    rw [CachedMilestoneOrNil_absent s i hex]
    exact ⟨rfl, release_afterLoad_calls s i, release_afterLoad_consumers s i⟩
  · intro hex
    rw [CachedMilestoneOrNil_present s i hex]
    refine ⟨rfl, ?_, ?_, ?_⟩
    · simp [afterLoad, ObjectStorage.Load]
    · simp [afterLoad, ObjectStorage.Load]
    · intro k hk
      simp [afterLoad, ObjectStorage.Load, hk]
  · cases hex : (loaded s i).Exists
    · exact ⟨_, _, _, MilestoneTimestampByIndex_absent s i hex, release_afterLoad_consumers s i⟩
    · obtain ⟨ms, hms⟩ := loaded_Get_of_Exists s i hex
      exact ⟨_, _, _, MilestoneTimestampByIndex_present s i ms hms,
        release_afterLoad_consumers s i⟩
  · cases hex : (loaded s i).Exists
    · exact ⟨_, _, _, MilestoneTimestampUnixByIndex_absent s i hex,
        release_afterLoad_consumers s i⟩
    · obtain ⟨ms, hms⟩ := loaded_Get_of_Exists s i hex
      exact ⟨_, _, _, MilestoneTimestampUnixByIndex_present s i ms hms,
        release_afterLoad_consumers s i⟩

/-- C5: over any store whose keys are 4-byte milestone keys, the scan returns a value that
bounds every decoded index and is one of them (0 when there are no keys); every store with
the same keys in another order gives the same value; and a store holding the keys of
3, 7, 1 and 9 in any order gives 9. -/
theorem search_latest_is_maximum (s : Storage)
    (hkeys : ∀ k ∈ s.milestoneStorage.storeKeys, k.len = 4) :
    (∃ r, s.SearchLatestMilestoneIndexInStore = .ok r ∧
      (∀ k ∈ s.milestoneStorage.storeKeys, ∀ i, milestoneIndexFromDatabaseKey k = .ok i → i ≤ r) ∧
      (s.milestoneStorage.storeKeys = [] → r = 0) ∧
      (s.milestoneStorage.storeKeys ≠ [] →
        ∃ k ∈ s.milestoneStorage.storeKeys, milestoneIndexFromDatabaseKey k = .ok r) ∧
      (∀ s1 : Storage, s1.milestoneStorage.storeKeys.Perm s.milestoneStorage.storeKeys →
        s1.SearchLatestMilestoneIndexInStore = .ok r)) ∧
    (∀ s1 : Storage,
      s1.milestoneStorage.storeKeys.Perm ([3, 7, 1, 9].map databaseKeyForMilestoneIndex) →
        s1.SearchLatestMilestoneIndexInStore = .ok 9) := by
  have attained : ∀ (keys : List ByteSlice) (r : Nat), (∀ k ∈ keys, k.len = 4) →
      (∀ k ∈ keys, ∀ i, milestoneIndexFromDatabaseKey k = .ok i → i ≤ r) →
      (r = 0 ∨ ∃ k ∈ keys, milestoneIndexFromDatabaseKey k = .ok r) → keys ≠ [] →
      ∃ k ∈ keys, milestoneIndexFromDatabaseKey k = .ok r := by
    intro keys r hlen hub hatt hne
    rcases hatt with h0 | h
    · obtain ⟨k, hk⟩ := List.exists_mem_of_ne_nil keys hne
      obtain ⟨i, hi⟩ := decode_of_len_four k (hlen k hk)
      have := hub k hk i hi
      have hi0 : i = 0 := by omega
      exact ⟨k, hk, by rw [hi, hi0, h0]⟩
    · exact h
  constructor
  · obtain ⟨r, hr, _, hub, hatt⟩ := forEachKey_latest s.milestoneStorage.storeKeys 0 hkeys
    refine ⟨r, hr, hub, ?_, attained _ r hkeys hub hatt, ?_⟩
    · intro hnil
      rcases hatt with h | ⟨k, hk, _⟩
      · exact h
      · rw [hnil] at hk
        cases hk
    · intro s1 hperm
      have hkeys1 : ∀ k ∈ s1.milestoneStorage.storeKeys, k.len = 4 :=
        fun k hk => hkeys k (hperm.mem_iff.mp hk)
      obtain ⟨r1, hr1, _, hub1, hatt1⟩ := forEachKey_latest s1.milestoneStorage.storeKeys 0 hkeys1
      have h1 : r1 ≤ r := by
        rcases hatt1 with h | ⟨k, hk, hkr⟩
        · omega
        · exact hub k (hperm.mem_iff.mp hk) r1 hkr
      have h2 : r ≤ r1 := by
        rcases hatt with h | ⟨k, hk, hkr⟩
        · omega
        · exact hub1 k (hperm.mem_iff.mpr hk) r hkr
      have : r1 = r := by omega
      rw [← this]
      exact hr1
  · intro s1 hperm
    have hmem : ∀ k, k ∈ s1.milestoneStorage.storeKeys ↔
        k = databaseKeyForMilestoneIndex 3 ∨ k = databaseKeyForMilestoneIndex 7 ∨
        k = databaseKeyForMilestoneIndex 1 ∨ k = databaseKeyForMilestoneIndex 9 := by
      intro k
      rw [hperm.mem_iff]
      simp
    have hkeys1 : ∀ k ∈ s1.milestoneStorage.storeKeys, k.len = 4 := by
      intro k hk
      rcases (hmem k).mp hk with rfl | rfl | rfl | rfl <;> rfl
    obtain ⟨r1, hr1, _, hub1, hatt1⟩ := forEachKey_latest s1.milestoneStorage.storeKeys 0 hkeys1
    have h9 : 9 ≤ r1 :=
      hub1 _ ((hmem _).mpr (Or.inr (Or.inr (Or.inr rfl)))) 9 (key_codec_small 9 (by decide))
    have hle : r1 ≤ 9 := by
      rcases hatt1 with h | ⟨k, hk, hkr⟩
      · omega
      · rcases (hmem k).mp hk with rfl | rfl | rfl | rfl <;>
          rw [key_codec_small _ (by decide)] at hkr <;> cases hkr <;> decide
    have : r1 = 9 := by omega
    rw [← this]
    exact hr1

theorem search_latest_is_maximum_witness :
    (Storage.mk { ObjectStorage.empty with
        storeKeys := [3, 7, 1, 9].map databaseKeyForMilestoneIndex
      }).SearchLatestMilestoneIndexInStore = .ok 9 :=
  (search_latest_is_maximum
    (Storage.mk { ObjectStorage.empty with
      storeKeys := [3, 7, 1, 9].map databaseKeyForMilestoneIndex })
    (by decide)).2 _ (List.Perm.refl _)

theorem lookup_consumer_balance_witness :
    ((Storage.mk ObjectStorage.empty).CachedMilestoneOrNil 101).2 = none ∧
    ∀ k, ((Storage.mk ObjectStorage.empty).CachedMilestoneOrNil 101).1.milestoneStorage.consumers k
      = ObjectStorage.empty.consumers k :=
  ⟨((lookup_consumer_balance (Storage.mk ObjectStorage.empty) 101).1 rfl).1,
   ((lookup_consumer_balance (Storage.mk ObjectStorage.empty) 101).1 rfl).2.2⟩

end Hornet
